import Mathlib

/-!
Shallow embedding of the simulation core of `life.py` (Conway's Game of Life
visualizer): the grid data model (`create_board`), the rule engine
(`count_live_neighbors`, `next_board_state`), the randomizer
(`random_fill_board`) and the pattern codec (`save_pattern`, `load_pattern`).

Modelling conventions:
* a Python board (list of lists of ints) is `Board := List (List Int)`;
* Python's in-bounds indexing `board[r][c]` is `cell board r c`, written with
  `List.getD` (every read in the source is guarded by a bounds check or a
  `range` loop, so the default is never consulted on rectangular boards);
* the in-place element assignment `new_board[r][c] = v` is `setCell`;
* `next_board_state` manipulates two distinct list objects (`board`, read
  only, and `new_board`, written only); the pair is made explicit as
  `RunState`, so that non-mutation of the input is a provable statement;
* `random.random()` is an arbitrary stream `rand : Nat → Rat` of draws,
  consumed left to right (Python guarantees draws lie in `[0,1)`, which
  appears as a hypothesis where needed);
* a text file is a list of lines, each a `List Char` (newline separators are
  implicit in the list structure); `str.strip`, `str.split(',')` and `int()`
  are embedded as `pyStrip`, `splitComma` and `pyInt` (`pyInt` covers
  Python's `int` on ASCII decimal literals: optional surrounding whitespace,
  optional sign, digits with single underscores as digit-group separators).
-/

abbrev Board := List (List Int)

/-- Python `board[r][c]` for an in-bounds read. -/
def cell (b : Board) (r c : Nat) : Int :=
  (b.getD r []).getD c 0

/-- Python `b[r][c] = v` (no-op out of range, which never happens in the
source: every write is under a `range` loop or a bounds check). -/
def setCell (b : Board) (r c : Nat) (v : Int) : Board :=
  b.set r ((b.getD r []).set c v)

/-- `create_board(width, height)`: `[[0 for _ in range(width)] for _ in
range(height)]`.  Python's `range(n)` is empty for `n ≤ 0`, hence `Int.toNat`. -/
def create_board (width height : Int) : Board :=
  List.replicate height.toNat (List.replicate width.toNat 0)

/-- `count_live_neighbors(board, r, c)`: accumulate over the offsets
`i, j ∈ range(-1, 2)`, skipping `(0, 0)`, counting in-bounds cells equal
to 1. -/
def count_live_neighbors (board : Board) (r c : Nat) : Nat :=
  let rows : Int := board.length
  let cols : Int := (board.getD 0 []).length
  List.foldl (fun acc i =>
    List.foldl (fun acc j =>
      if i = 0 ∧ j = 0 then acc
      else
        let nr : Int := (r : Int) + i
        let nc : Int := (c : Int) + j
        if 0 ≤ nr ∧ nr < rows ∧ 0 ≤ nc ∧ nc < cols ∧
            cell board nr.toNat nc.toNat = 1 then acc + 1
        else acc)
      acc [-1, 0, 1])
    0 [-1, 0, 1]

/-- The two list objects alive during `next_board_state`: the input `board`
(only read) and the fresh `new_board` (only written). -/
structure RunState where
  board : Board
  new_board : Board

/-- The body of the double loop of `next_board_state` at cell `(r, c)`:
reads `board`, assigns into `new_board` (no assignment in the dead,
non-three-neighbors case). -/
def next_step (st : RunState) (r c : Nat) : RunState :=
  let live_neighbors := count_live_neighbors st.board r c
  let cell_state := cell st.board r c
  if cell_state = 1 then
    if live_neighbors < 2 ∨ 3 < live_neighbors then
      { st with new_board := setCell st.new_board r c 0 }
    else
      { st with new_board := setCell st.new_board r c 1 }
  else
    if live_neighbors = 3 then
      { st with new_board := setCell st.new_board r c 1 }
    else st

/-- `next_board_state` as a state transformer: `new_board = create_board(cols,
rows)` followed by the double loop `for r in range(rows): for c in
range(cols)`. -/
def next_run (board : Board) : RunState :=
  let rows := board.length
  let cols := (board.getD 0 []).length
  (List.range rows).foldl
    (fun st r => (List.range cols).foldl (fun st c => next_step st r c) st)
    { board := board, new_board := create_board (cols : Int) (rows : Int) }

/-- `next_board_state(board)`: the value of `new_board` after the loop. -/
def next_board_state (board : Board) : Board :=
  (next_run board).new_board

/-- The per-cell value dictated by the branch structure of
`next_board_state`'s loop body (the dead, non-three case leaves the fresh
zero in place). -/
def ruleVal (board : Board) (r c : Nat) : Int :=
  if cell board r c = 1 then
    if count_live_neighbors board r c < 2 ∨ 3 < count_live_neighbors board r c
      then 0 else 1
  else
    if count_live_neighbors board r c = 3 then 1 else 0

/-- Every row has the length of row 0 (Python reads `cols = len(board[0])`
and then indexes every row up to `cols`). -/
def rectangular (b : Board) : Prop :=
  ∀ row ∈ b, row.length = (b.getD 0 []).length

instance (b : Board) : Decidable (rectangular b) :=
  List.decidableBAll _ b

/-- The eight neighbor offsets `(−1..1, −1..1)` without `(0, 0)`, in the
order the source's double loop visits them. -/
def neighborOffsets : List (Int × Int) :=
  [(-1,-1),(-1,0),(-1,1),(0,-1),(0,1),(1,-1),(1,0),(1,1)]

/-- Offset `p` from `(r, c)` lands inside `[0,height)×[0,width)` on a live
cell. -/
def liveInGrid (board : Board) (r c : Nat) (p : Int × Int) : Prop :=
  0 ≤ (r : Int) + p.1 ∧ (r : Int) + p.1 < (board.length : Int) ∧
  0 ≤ (c : Int) + p.2 ∧ (c : Int) + p.2 < ((board.getD 0 []).length : Int) ∧
  cell board ((r : Int) + p.1).toNat ((c : Int) + p.2).toNat = 1

instance (board : Board) (r c : Nat) (p : Int × Int) :
    Decidable (liveInGrid board r c p) :=
  inferInstanceAs (Decidable (_ ∧ _))

/-- Spec-side neighbor count (§4.2 step 1): the number of the 8 offsets that
fall inside the grid on a live cell. -/
def spec_neighbor_count (board : Board) (r c : Nat) : Nat :=
  (neighborOffsets.filter (fun p => decide (liveInGrid board r c p))).length

/-- The board with every non-1 value replaced by 0: the 0/1 board the code's
`== 1` tests effectively see. -/
def normalizeBoard (b : Board) : Board :=
  b.map (fun row => row.map (fun v => if v = 1 then 1 else 0))

/-- `random_fill_board(board, density)`: one `random.random()` draw per cell
(taken from the stream `rand`, consumed left to right), writing 1 when the
draw is below `density` and 0 otherwise.  The Python function mutates
`board` in place; its final value is returned here. -/
def random_fill_board (board : Board) (density : Rat) (rand : Nat → Rat) : Board :=
  let rows := board.length
  let cols := (board.getD 0 []).length
  ((List.range rows).foldl (fun st r =>
      (List.range cols).foldl (fun (st : Board × Nat) c =>
        if rand st.2 < density then (setCell st.1 r c 1, st.2 + 1)
        else (setCell st.1 r c 0, st.2 + 1)) st)
    (board, 0)).1

/-- Python's whitespace set for `str.strip()` (ASCII part). -/
def pyIsSpace (ch : Char) : Bool :=
  ch = ' ' ∨ ch = '\t' ∨ ch = '\n' ∨ ch = '\r' ∨ ch = '\x0b' ∨ ch = '\x0c'

/-- `line.strip()`. -/
def pyStrip (s : List Char) : List Char :=
  ((s.dropWhile pyIsSpace).reverse.dropWhile pyIsSpace).reverse

/-- `line.split(',')`: split at every comma; no merging of empty parts. -/
def splitComma : List Char → List (List Char)
  | [] => [[]]
  | ch :: rest =>
    if ch = ',' then [] :: splitComma rest
    else (ch :: (splitComma rest).headD []) :: (splitComma rest).tail

/-- Numeric value of an ASCII digit character. -/
def digitVal (ch : Char) : Nat := ch.toNat - 48

/-- Digits of a Python integer literal after the first one: digits with
single underscores allowed between digits. -/
def digitsGo (acc : Nat) : List Char → Option Nat
  | [] => some acc
  | ch :: rest =>
    if ch.isDigit then digitsGo (10 * acc + digitVal ch) rest
    else if ch = '_' then
      match rest with
      | [] => none
      | d :: rest' => if d.isDigit then digitsGo (10 * acc + digitVal d) rest' else none
    else none

/-- The digit part of a Python integer literal: at least one digit first. -/
def digitsVal : List Char → Option Nat
  | [] => none
  | ch :: rest => if ch.isDigit then digitsGo (digitVal ch) rest else none

/-- Python `int(s)` on ASCII decimal text: strip whitespace, optional sign,
digit part; `none` models the `ValueError` that `load_pattern` catches. -/
def pyInt (s : List Char) : Option Int :=
  match pyStrip s with
  | '+' :: rest => (digitsVal rest).map (fun n => (n : Int))
  | '-' :: rest => (digitsVal rest).map (fun n => -(n : Int))
  | t => (digitsVal t).map (fun n => (n : Int))

/-- `x, y = map(int, line.split(','))`: exactly two comma-separated parts,
both parseable as integers; any failure raises the `ValueError` the caller
catches. -/
def parseLine (line : List Char) : Option (Int × Int) :=
  match splitComma line with
  | [a, b] =>
    match pyInt a, pyInt b with
    | some x, some y => some (x, y)
    | _, _ => none
  | _ => none

/-- Decimal rendering of a natural number, as Python's `str`/f-string
formatting produces it. -/
def digitChar (d : Nat) : Char := Char.ofNat (48 + d)

def natRepr (n : Nat) : List Char :=
  if n = 0 then ['0'] else ((Nat.digits 10 n).map digitChar).reverse

/-- `save_pattern(board)`: the lines written to the file — one header
comment, then one `"{c},{r}"` line per cell equal to 1, rows outer, columns
inner. -/
def save_pattern (board : Board) : List (List Char) :=
  ("# Pattern: Custom saved pattern").data ::
  (List.range board.length).flatMap (fun r =>
    ((List.range (board.getD 0 []).length).filter
        (fun c => decide (cell board r c = 1))).map
      (fun c => natRepr c ++ ',' :: natRepr r))

/-- Console reports `load_pattern` can emit: the per-line parse warning and
the file-not-found error message. -/
inductive LoadMsg
  | parseWarning (line : List Char)
  | fileNotFound
deriving DecidableEq

/-- The body of `load_pattern`'s `for line in f` loop: strip, skip blank and
comment lines, parse `x, y = map(int, line.split(','))`, set the cell when in
bounds, warn (and continue) when parsing raises `ValueError`. -/
def load_step (board_width board_height : Int) (st : Board × List LoadMsg)
    (rawLine : List Char) : Board × List LoadMsg :=
  let line := pyStrip rawLine
  if line = [] ∨ line.headD ' ' = '#' then st
  else
    match parseLine line with
    | some (x, y) =>
      if 0 ≤ y ∧ y < board_height ∧ 0 ≤ x ∧ x < board_width then
        (setCell st.1 y.toNat x.toNat 1, st.2)
      else st
    | none => (st.1, st.2 ++ [LoadMsg.parseWarning line])

/-- `load_pattern(filename, board_width, board_height)`: `file = none` is
the `FileNotFoundError` path (empty board returned); otherwise each line is
processed by `load_step` on a fresh empty board. -/
def load_pattern (file : Option (List (List Char))) (board_width board_height : Int) :
    Board × List LoadMsg :=
  match file with
  | none => (create_board board_width board_height, [LoadMsg.fileNotFound])
  | some lines =>
    lines.foldl (load_step board_width board_height)
      (create_board board_width board_height, [])

/-- A line `sets (x, y)` when `load_pattern` marks `new_board[y][x]` alive
because of it: not blank or comment after stripping, parses to `(x, y)`,
and `(x, y)` is in bounds. -/
def lineSets (rawLine : List Char) (board_width board_height : Int) (x y : Int) : Prop :=
  ¬(pyStrip rawLine = [] ∨ (pyStrip rawLine).headD ' ' = '#') ∧
  parseLine (pyStrip rawLine) = some (x, y) ∧
  0 ≤ y ∧ y < board_height ∧ 0 ≤ x ∧ x < board_width

instance (rawLine : List Char) (w h x y : Int) :
    Decidable (lineSets rawLine w h x y) :=
  inferInstanceAs (Decidable (_ ∧ _))

/-- The warning `load_step` emits for a line: present exactly when the line
is not blank or a comment and fails to parse. -/
def lineWarn (rawLine : List Char) : Option LoadMsg :=
  if ¬(pyStrip rawLine = [] ∨ (pyStrip rawLine).headD ' ' = '#') ∧
      parseLine (pyStrip rawLine) = none
  then some (LoadMsg.parseWarning (pyStrip rawLine)) else none

/-- Errors named by the spec's error taxonomy (§7). -/
inductive LifeError
  | invalidDimension
  | invalidDensity
deriving DecidableEq

/-- The spec's words for `create` (§4.1): all-dead grid, `InvalidDimension`
error if `width ≤ 0` or `height ≤ 0`.  Stated for comparison with the
source's `create_board`, which validates nothing. -/
def create_spec (width height : Int) : Except LifeError Board :=
  if width ≤ 0 ∨ height ≤ 0 then Except.error LifeError.invalidDimension
  else Except.ok (List.replicate height.toNat (List.replicate width.toNat 0))

/-- The spec's words for `randomFill` (§4.4): `InvalidDensity` if `density`
is outside `[0,1]`, rejected before mutating any grid.  Stated for
comparison with the source's `random_fill_board`, which validates nothing. -/
def random_fill_spec (board : Board) (density : Rat) (rand : Nat → Rat) :
    Except LifeError Board :=
  if density < 0 ∨ 1 < density then Except.error LifeError.invalidDensity
  else Except.ok (random_fill_board board density rand)

/-! ### Basic lemmas about the embedded operations -/

theorem count_eq_fold (board : Board) (r c : Nat) :
    count_live_neighbors board r c =
      List.foldl (fun acc p => if liveInGrid board r c p then acc + 1 else acc)
        0 neighborOffsets := by
  rfl


theorem foldl_if_count {α : Type} (p : α → Prop) [DecidablePred p] :
    ∀ (l : List α) (acc : Nat),
      List.foldl (fun a x => if p x then a + 1 else a) acc l =
        acc + (l.filter (fun x => decide (p x))).length := by
  intro l
  induction l with
  | nil => intro acc; simp
  | cons x xs ih =>
    intro acc
    by_cases h : p x <;> simp [h, ih] <;> omega


theorem setCell_length (b : Board) (r c : Nat) (v : Int) :
    (setCell b r c v).length = b.length := by
  simp [setCell]


theorem getD_setCell_ne (b : Board) (r c : Nat) (v : Int) (r' : Nat)
    (h : r' ≠ r) : (setCell b r c v).getD r' [] = b.getD r' [] := by
  simp [setCell, List.getD_eq_getElem?_getD, List.getElem?_set_ne (Ne.symm h)]


theorem getD_setCell_self (b : Board) (r c : Nat) (v : Int) (h : r < b.length) :
    (setCell b r c v).getD r [] = (b.getD r []).set c v := by
  simp [setCell, List.getD_eq_getElem?_getD, List.getElem?_set_eq_of_lt _ h]


theorem cell_setCell_self (b : Board) (r c : Nat) (v : Int)
    (hr : r < b.length) (hc : c < (b.getD r []).length) :
    cell (setCell b r c v) r c = v := by
  rw [cell, getD_setCell_self _ _ _ _ hr]
  rw [List.getD_eq_getElem?_getD, List.getElem?_set_eq_of_lt _ (by simpa using hc)]
  rfl


theorem cell_setCell_ne (b : Board) (r c : Nat) (v : Int) (r' c' : Nat)
    (h : ¬(r' = r ∧ c' = c)) : cell (setCell b r c v) r' c' = cell b r' c' := by
  by_cases hr : r' = r
  · subst hr
    have hc : c' ≠ c := fun hc => h ⟨rfl, hc⟩
    by_cases hlt : r' < b.length
    · rw [cell, cell, getD_setCell_self _ _ _ _ hlt,
        List.getD_eq_getElem?_getD, List.getElem?_set_ne (Ne.symm hc),
        ← List.getD_eq_getElem?_getD]
    · have : b.set r' ((b.getD r' []).set c v) = b :=
        List.set_eq_of_length_le (by omega)
      rw [cell, setCell, this, cell]
  · rw [cell, cell, getD_setCell_ne _ _ _ _ _ hr]


theorem length_getD_setCell (b : Board) (r c : Nat) (v : Int) (r' : Nat) :
    ((setCell b r c v).getD r' []).length = (b.getD r' []).length := by
  by_cases hr : r' = r
  · rw [hr]
    by_cases hlt : r < b.length
    · rw [getD_setCell_self _ _ _ _ hlt, List.length_set]
    · have heq : b.set r ((b.getD r []).set c v) = b :=
        List.set_eq_of_length_le (by omega)
      rw [setCell, heq]
  · rw [getD_setCell_ne _ _ _ _ _ hr]


theorem next_step_board (st : RunState) (r c : Nat) :
    (next_step st r c).board = st.board := by
  dsimp only [next_step]
  split_ifs <;> rfl


theorem next_step_new_board (st : RunState) (r c : Nat) :
    (next_step st r c).new_board = setCell st.new_board r c (ruleVal st.board r c) ∨
      ((next_step st r c).new_board = st.new_board ∧ ruleVal st.board r c = 0) := by
  dsimp only [next_step, ruleVal]
  split_ifs <;> simp_all


theorem cell_create_board (w h : Int) (r c : Nat) :
    cell (create_board w h) r c = 0 := by
  unfold cell create_board
  rcases Nat.lt_or_ge r h.toNat with hr | hr
  · rw [List.getD_eq_getElem (List.replicate h.toNat (List.replicate w.toNat 0)) []
      (by simpa using hr), List.getElem_replicate]
    rcases Nat.lt_or_ge c w.toNat with hc | hc
    · rw [List.getD_eq_getElem (List.replicate w.toNat (0 : Int)) 0 (by simpa using hc),
        List.getElem_replicate]
    · rw [List.getD_eq_default (List.replicate w.toNat (0 : Int)) 0 (by simpa using hc)]
  · rw [List.getD_eq_default (List.replicate h.toNat (List.replicate w.toNat 0)) []
      (by simpa using hr)]
    rfl


/-- Invariant carried through the inner loop `for c in range(cols)` of
`next_board_state`, at row `r`, starting from a state whose output row `r`
is still all zero. -/
theorem inner_loop_spec (board : Board) (r : Nat) (nb : Board)
    (hr : r < nb.length) (hz : ∀ c', cell nb r c' = 0) (m : Nat) :
    ((List.range m).foldl (fun st c => next_step st r c) ⟨board, nb⟩).board = board ∧
    ((List.range m).foldl (fun st c => next_step st r c) ⟨board, nb⟩).new_board.length = nb.length ∧
    (∀ r', ((((List.range m).foldl (fun st c => next_step st r c) ⟨board, nb⟩).new_board.getD r' []).length = (nb.getD r' []).length)) ∧
    (∀ r', r' ≠ r → ((List.range m).foldl (fun st c => next_step st r c) ⟨board, nb⟩).new_board.getD r' [] = nb.getD r' []) ∧
    (∀ c', cell ((List.range m).foldl (fun st c => next_step st r c) ⟨board, nb⟩).new_board r c' =
      if c' < m ∧ c' < (nb.getD r []).length then ruleVal board r c' else 0) := by
  induction m with
  | zero =>
    refine ⟨rfl, rfl, fun _ => rfl, fun _ _ => rfl, ?_⟩
    intro c'
    simp [hz c']
  | succ m ih =>
    rw [List.range_succ, List.foldl_append, List.foldl_cons, List.foldl_nil]
    obtain ⟨ib, ilen, irowlen, irows, icells⟩ := ih
    set stm := (List.range m).foldl (fun st c => next_step st r c) (⟨board, nb⟩ : RunState) with hstm
    have hb' : (next_step stm r m).board = board := by rw [next_step_board, ib]
    have hlen' : (next_step stm r m).new_board.length = nb.length := by
      rcases next_step_new_board stm r m with h | ⟨h, _⟩
      · rw [h, setCell_length, ilen]
      · rw [h, ilen]
    have hrowlen' : ∀ r', (((next_step stm r m).new_board.getD r' []).length = (nb.getD r' []).length) := by
      intro r'
      rcases next_step_new_board stm r m with h | ⟨h, _⟩
      · rw [h, length_getD_setCell, irowlen]
      · rw [h, irowlen]
    have hrows' : ∀ r', r' ≠ r → (next_step stm r m).new_board.getD r' [] = nb.getD r' [] := by
      intro r' hne
      rcases next_step_new_board stm r m with h | ⟨h, _⟩
      · rw [h, getD_setCell_ne _ _ _ _ _ hne, irows _ hne]
      · rw [h, irows _ hne]
    refine ⟨hb', hlen', hrowlen', hrows', ?_⟩
    intro c'
    have hrv : ruleVal stm.board r m = ruleVal board r m := by rw [ib]
    by_cases hcm : c' = m
    · subst hcm
      by_cases hin : c' < (nb.getD r []).length
      · rcases next_step_new_board stm r c' with h | ⟨h, h0⟩
        · rw [h, hrv, cell_setCell_self _ _ _ _ (by rw [ilen]; exact hr)
            (by rw [irowlen]; exact hin), if_pos ⟨Nat.lt_succ_self c', hin⟩]
        · rw [hrv] at h0
          rw [h, icells c', if_neg (fun hx => Nat.lt_irrefl c' hx.1),
            if_pos ⟨Nat.lt_succ_self c', hin⟩, h0]
      · rcases next_step_new_board stm r c' with h | ⟨h, h0⟩
        · rw [h, cell, getD_setCell_self _ _ _ _ (by rw [ilen]; exact hr)]
          have hsetid : ((stm.new_board.getD r []).set c' (ruleVal stm.board r c'))
              = stm.new_board.getD r [] :=
            List.set_eq_of_length_le (by rw [irowlen]; omega)
          rw [hsetid, show (stm.new_board.getD r []).getD c' 0 = cell stm.new_board r c' from rfl,
            icells c', if_neg (fun hx => hin hx.2), if_neg (fun hx => hin hx.2)]
        · rw [h, icells c', if_neg (fun hx => hin hx.2), if_neg (fun hx => hin hx.2)]
    · have hne : ¬(r = r ∧ c' = m) := fun hx => hcm hx.2
      have hcell : cell (next_step stm r m).new_board r c' = cell stm.new_board r c' := by
        rcases next_step_new_board stm r m with h | ⟨h, _⟩
        · rw [h, cell_setCell_ne _ _ _ _ _ _ hne]
        · rw [h]
      rw [hcell, icells c']
      by_cases hL : c' < (nb.getD r []).length
      · by_cases hlt : c' < m
        · rw [if_pos ⟨hlt, hL⟩, if_pos ⟨Nat.lt_succ_of_lt hlt, hL⟩]
        · rw [if_neg (fun hx => hlt hx.1), if_neg (fun hx => hlt (by omega))]
      · rw [if_neg (fun hx => hL hx.2), if_neg (fun hx => hL hx.2)]


theorem create_board_length (w h : Int) : (create_board w h).length = h.toNat := by
  simp [create_board]


theorem create_board_row_length (w h : Int) (r : Nat) (hr : r < h.toNat) :
    ((create_board w h).getD r []).length = w.toNat := by
  rw [create_board, List.getD_eq_getElem (List.replicate h.toNat (List.replicate w.toNat 0)) []
    (by simpa using hr), List.getElem_replicate, List.length_replicate]


/-- Invariant carried through the outer loop `for r in range(rows)` of
`next_board_state`. -/
theorem outer_loop_spec (board : Board) (m : Nat) (hm : m ≤ board.length) :
    ((List.range m).foldl
      (fun st r => (List.range (board.getD 0 []).length).foldl (fun st c => next_step st r c) st)
      ⟨board, create_board ((board.getD 0 []).length : Int) (board.length : Int)⟩).board = board ∧
    ((List.range m).foldl
      (fun st r => (List.range (board.getD 0 []).length).foldl (fun st c => next_step st r c) st)
      ⟨board, create_board ((board.getD 0 []).length : Int) (board.length : Int)⟩).new_board.length = board.length ∧
    (∀ r', (((List.range m).foldl
      (fun st r => (List.range (board.getD 0 []).length).foldl (fun st c => next_step st r c) st)
      ⟨board, create_board ((board.getD 0 []).length : Int) (board.length : Int)⟩).new_board.getD r' []).length =
        ((create_board ((board.getD 0 []).length : Int) (board.length : Int)).getD r' []).length) ∧
    (∀ r' c', r' < m → c' < (board.getD 0 []).length →
      cell ((List.range m).foldl
        (fun st r => (List.range (board.getD 0 []).length).foldl (fun st c => next_step st r c) st)
        ⟨board, create_board ((board.getD 0 []).length : Int) (board.length : Int)⟩).new_board r' c' =
          ruleVal board r' c') ∧
    (∀ r' c', m ≤ r' →
      cell ((List.range m).foldl
        (fun st r => (List.range (board.getD 0 []).length).foldl (fun st c => next_step st r c) st)
        ⟨board, create_board ((board.getD 0 []).length : Int) (board.length : Int)⟩).new_board r' c' = 0) := by
  induction m with
  | zero =>
    refine ⟨rfl, by simp [create_board_length], fun _ => rfl, fun _ _ h _ => absurd h (Nat.not_lt_zero _), ?_⟩
    intro r' c' _
    exact cell_create_board _ _ _ _
  | succ m ih =>
    have hm' : m ≤ board.length := Nat.le_of_succ_le hm
    obtain ⟨ib, ilen, irowlen, idone, itodo⟩ := ih hm'
    rw [List.range_succ, List.foldl_append, List.foldl_cons, List.foldl_nil]
    set stm := (List.range m).foldl
      (fun st r => (List.range (board.getD 0 []).length).foldl (fun st c => next_step st r c) st)
      (⟨board, create_board ((board.getD 0 []).length : Int) (board.length : Int)⟩ : RunState) with hstm
    have hsteq : stm = RunState.mk board stm.new_board :=
      (show stm = RunState.mk stm.board stm.new_board from rfl).trans (by rw [ib])
    have hrm : m < stm.new_board.length := by rw [ilen]; omega
    have hzm : ∀ c', cell stm.new_board m c' = 0 := fun c' => itodo m c' (Nat.le_refl m)
    obtain ⟨jb, jlen, jrowlen, jrows, jcells⟩ :=
      inner_loop_spec board m stm.new_board hrm hzm (board.getD 0 []).length
    rw [hsteq]
    refine ⟨jb, by rw [jlen, ilen], ?_, ?_, ?_⟩
    · intro r'
      rw [jrowlen, irowlen]
    · intro r' c' hr' hc'
      by_cases hrm' : r' = m
      · subst hrm'
        rw [jcells c']
        have hL : (stm.new_board.getD r' []).length = (board.getD 0 []).length := by
          rw [irowlen, create_board_row_length]
          · exact Int.toNat_ofNat _
          · simpa using (by omega : r' < board.length)
        rw [if_pos ⟨hc', by rw [hL]; exact hc'⟩]
      · have hne : r' ≠ m := hrm'
        have : (List.foldl (fun st c => next_step st m c) (RunState.mk board stm.new_board)
            (List.range (board.getD 0 []).length)).new_board.getD r' [] = stm.new_board.getD r' [] :=
          jrows r' hne
        rw [cell, this, ← cell]
        exact idone r' c' (by omega) hc'
    · intro r' c' hr'
      have hne : r' ≠ m := by omega
      have : (List.foldl (fun st c => next_step st m c) (RunState.mk board stm.new_board)
          (List.range (board.getD 0 []).length)).new_board.getD r' [] = stm.new_board.getD r' [] :=
        jrows r' hne
      rw [cell, this, ← cell]
      exact itodo r' c' (by omega)


theorem next_run_board_eq (board : Board) : (next_run board).board = board :=
  (outer_loop_spec board board.length (Nat.le_refl _)).1


theorem next_board_state_length (board : Board) :
    (next_board_state board).length = board.length :=
  (outer_loop_spec board board.length (Nat.le_refl _)).2.1


theorem next_board_state_row_length (board : Board) (r : Nat) (hr : r < board.length) :
    ((next_board_state board).getD r []).length = (board.getD 0 []).length := by
  have h := (outer_loop_spec board board.length (Nat.le_refl _)).2.2.1 r
  rw [next_board_state, next_run]
  rw [h, create_board_row_length]
  · exact Int.toNat_ofNat _
  · simpa using hr


theorem next_board_state_cell (board : Board) (r c : Nat)
    (hr : r < board.length) (hc : c < (board.getD 0 []).length) :
    cell (next_board_state board) r c = ruleVal board r c :=
  (outer_loop_spec board board.length (Nat.le_refl _)).2.2.2.1 r c hr hc


theorem count_live_neighbors_eq_spec (board : Board) (r c : Nat) :
    count_live_neighbors board r c = spec_neighbor_count board r c := by
  rw [count_eq_fold, foldl_if_count (liveInGrid board r c)]
  simp [spec_neighbor_count]


theorem setCell_out (b : Board) (r c : Nat) (v : Int) (h : b.length ≤ r) :
    setCell b r c v = b :=
  List.set_eq_of_length_le h

/-- One body iteration of `random_fill_board` writes
`1 if rand k < density else 0` and advances the draw counter. -/
theorem fill_step_eq (density : Rat) (rand : Nat → Rat) (st : Board × Nat) (r c : Nat) :
    (if rand st.2 < density then (setCell st.1 r c 1, st.2 + 1)
      else (setCell st.1 r c 0, st.2 + 1)) =
    (setCell st.1 r c (if rand st.2 < density then 1 else 0), st.2 + 1) := by
  split_ifs <;> rfl

/-- Invariant through the inner loop of `random_fill_board` at row `r`, when
every draw produces the same written value `v`. -/
theorem fill_inner_spec (density : Rat) (rand : Nat → Rat) (v : Int)
    (hv : ∀ k, (if rand k < density then (1 : Int) else 0) = v)
    (r : Nat) (b : Board) (k : Nat) (m : Nat) :
    ((List.range m).foldl (fun (st : Board × Nat) c =>
        if rand st.2 < density then (setCell st.1 r c 1, st.2 + 1)
        else (setCell st.1 r c 0, st.2 + 1)) (b, k)).1.length = b.length ∧
    (∀ r', (((List.range m).foldl (fun (st : Board × Nat) c =>
        if rand st.2 < density then (setCell st.1 r c 1, st.2 + 1)
        else (setCell st.1 r c 0, st.2 + 1)) (b, k)).1.getD r' []).length = (b.getD r' []).length) ∧
    (∀ r', r' ≠ r → ((List.range m).foldl (fun (st : Board × Nat) c =>
        if rand st.2 < density then (setCell st.1 r c 1, st.2 + 1)
        else (setCell st.1 r c 0, st.2 + 1)) (b, k)).1.getD r' [] = b.getD r' []) ∧
    (∀ c', cell ((List.range m).foldl (fun (st : Board × Nat) c =>
        if rand st.2 < density then (setCell st.1 r c 1, st.2 + 1)
        else (setCell st.1 r c 0, st.2 + 1)) (b, k)).1 r c' =
      if c' < m ∧ r < b.length ∧ c' < (b.getD r []).length then v else cell b r c') := by
  induction m generalizing b k with
  | zero =>
    refine ⟨rfl, fun _ => rfl, fun _ _ => rfl, ?_⟩
    intro c'
    simp
  | succ m ih =>
    rw [List.range_succ, List.foldl_append, List.foldl_cons, List.foldl_nil]
    obtain ⟨ilen, irowlen, irows, icells⟩ := ih b k
    set stm := (List.range m).foldl (fun (st : Board × Nat) c =>
        if rand st.2 < density then (setCell st.1 r c 1, st.2 + 1)
        else (setCell st.1 r c 0, st.2 + 1)) ((b, k) : Board × Nat) with hstm
    rw [fill_step_eq, hv stm.2]
    refine ⟨by rw [setCell_length, ilen], ?_, ?_, ?_⟩
    · intro r'
      rw [length_getD_setCell, irowlen]
    · intro r' hne
      rw [getD_setCell_ne _ _ _ _ _ hne, irows _ hne]
    · intro c'
      by_cases hcm : c' = m
      · subst hcm
        by_cases hrb : r < b.length
        · by_cases hcl : c' < (b.getD r []).length
          · rw [cell_setCell_self _ _ _ _ (by rw [ilen]; exact hrb)
              (by rw [irowlen]; exact hcl),
              if_pos ⟨Nat.lt_succ_self c', hrb, hcl⟩]
          · rw [cell, getD_setCell_self _ _ _ _ (by rw [ilen]; exact hrb)]
            have hsetid : ((stm.1.getD r []).set c' v) = stm.1.getD r [] :=
              List.set_eq_of_length_le (by rw [irowlen]; omega)
            rw [hsetid, show (stm.1.getD r []).getD c' 0 = cell stm.1 r c' from rfl,
              icells c', if_neg (fun hx => hcl hx.2.2), if_neg (fun hx => hcl hx.2.2)]
        · rw [setCell_out _ _ _ _ (by rw [ilen]; omega), icells c',
            if_neg (fun hx => hrb hx.2.1), if_neg (fun hx => hrb hx.2.1)]
      · have hne : ¬(r = r ∧ c' = m) := fun hx => hcm hx.2
        rw [cell_setCell_ne _ _ _ _ _ _ hne, icells c']
        by_cases hrb : r < b.length
        · by_cases hcl : c' < (b.getD r []).length
          · by_cases hlt : c' < m
            · rw [if_pos ⟨hlt, hrb, hcl⟩, if_pos ⟨Nat.lt_succ_of_lt hlt, hrb, hcl⟩]
            · rw [if_neg (fun hx => hlt hx.1), if_neg (fun hx => hlt (by omega))]
          · rw [if_neg (fun hx => hcl hx.2.2), if_neg (fun hx => hcl hx.2.2)]
        · rw [if_neg (fun hx => hrb hx.2.1), if_neg (fun hx => hrb hx.2.1)]

/-- Invariant through the outer loop of `random_fill_board`, when every draw
produces the same written value `v`. -/
theorem fill_outer_spec (board : Board) (density : Rat) (rand : Nat → Rat) (v : Int)
    (hv : ∀ k, (if rand k < density then (1 : Int) else 0) = v) (m : Nat) :
    ((List.range m).foldl (fun st r =>
        (List.range (board.getD 0 []).length).foldl (fun (st : Board × Nat) c =>
          if rand st.2 < density then (setCell st.1 r c 1, st.2 + 1)
          else (setCell st.1 r c 0, st.2 + 1)) st) ((board, 0) : Board × Nat)).1.length
        = board.length ∧
    (∀ r', (((List.range m).foldl (fun st r =>
        (List.range (board.getD 0 []).length).foldl (fun (st : Board × Nat) c =>
          if rand st.2 < density then (setCell st.1 r c 1, st.2 + 1)
          else (setCell st.1 r c 0, st.2 + 1)) st) ((board, 0) : Board × Nat)).1.getD r' []).length
        = (board.getD r' []).length) ∧
    (∀ r' c', r' < m → c' < (board.getD r' []).length → r' < board.length →
      cell ((List.range m).foldl (fun st r =>
        (List.range (board.getD 0 []).length).foldl (fun (st : Board × Nat) c =>
          if rand st.2 < density then (setCell st.1 r c 1, st.2 + 1)
          else (setCell st.1 r c 0, st.2 + 1)) st) ((board, 0) : Board × Nat)).1 r' c'
        = if c' < (board.getD 0 []).length then v else cell board r' c') ∧
    (∀ r' c', m ≤ r' →
      cell ((List.range m).foldl (fun st r =>
        (List.range (board.getD 0 []).length).foldl (fun (st : Board × Nat) c =>
          if rand st.2 < density then (setCell st.1 r c 1, st.2 + 1)
          else (setCell st.1 r c 0, st.2 + 1)) st) ((board, 0) : Board × Nat)).1 r' c'
        = cell board r' c') := by
  induction m with
  | zero =>
    exact ⟨rfl, fun _ => rfl, fun _ _ h _ _ => absurd h (Nat.not_lt_zero _), fun _ _ _ => rfl⟩
  | succ m ih =>
    rw [List.range_succ, List.foldl_append, List.foldl_cons, List.foldl_nil]
    obtain ⟨ilen, irowlen, idone, itodo⟩ := ih
    set stm := (List.range m).foldl (fun st r =>
        (List.range (board.getD 0 []).length).foldl (fun (st : Board × Nat) c =>
          if rand st.2 < density then (setCell st.1 r c 1, st.2 + 1)
          else (setCell st.1 r c 0, st.2 + 1)) st) ((board, 0) : Board × Nat) with hstm
    obtain ⟨jlen, jrowlen, jrows, jcells⟩ :=
      fill_inner_spec density rand v hv m stm.1 stm.2 (board.getD 0 []).length
    refine ⟨by rw [jlen, ilen], ?_, ?_, ?_⟩
    · intro r'
      rw [jrowlen, irowlen]
    · intro r' c' hr' hcr hrb
      by_cases hrm : r' = m
      · subst hrm
        rw [jcells c']
        by_cases hc0 : c' < (board.getD 0 []).length
        · rw [if_pos ⟨hc0, by rw [ilen]; exact hrb, by rw [irowlen]; exact hcr⟩, if_pos hc0]
        · rw [if_neg (fun hx => hc0 hx.1), if_neg hc0]
          rw [show cell stm.1 r' c' = _ from itodo r' c' (Nat.le_refl _)]
      · rw [cell, jrows r' hrm, ← cell]
        exact idone r' c' (by omega) hcr hrb
    · intro r' c' hr'
      rw [cell, jrows r' (by omega), ← cell]
      exact itodo r' c' (by omega)

theorem rect_row_length (b : Board) (hrect : rectangular b) (r : Nat)
    (hr : r < b.length) : (b.getD r []).length = (b.getD 0 []).length := by
  rw [List.getD_eq_getElem b [] hr]
  exact hrect _ (List.getElem_mem _)

/-- When every draw writes the same value `v`, `random_fill_board` leaves
the dimensions unchanged and every cell equal to `v`. -/
theorem random_fill_const (board : Board) (density : Rat) (rand : Nat → Rat)
    (v : Int) (hv : ∀ k, (if rand k < density then (1 : Int) else 0) = v)
    (hrect : rectangular board) :
    (random_fill_board board density rand).length = board.length ∧
    (∀ r', ((random_fill_board board density rand).getD r' []).length
      = (board.getD r' []).length) ∧
    (∀ r c, r < board.length → c < (board.getD 0 []).length →
      cell (random_fill_board board density rand) r c = v) := by
  obtain ⟨hlen, hrowlen, hdone, -⟩ :=
    fill_outer_spec board density rand v hv board.length
  refine ⟨hlen, hrowlen, ?_⟩
  intro r c hr hc
  rw [random_fill_board]
  rw [show cell _ r c = _ from hdone r c hr (by rw [rect_row_length board hrect r hr]; exact hc) hr,
    if_pos hc]

/-! ### Character and digit-string lemmas for the pattern codec -/

theorem digitChar_isDigit (d : Nat) (hd : d < 10) : (digitChar d).isDigit = true := by
  interval_cases d <;> decide

theorem digitVal_digitChar (d : Nat) (hd : d < 10) : digitVal (digitChar d) = d := by
  interval_cases d <;> decide

theorem isDigit_ne_comma (ch : Char) (h : ch.isDigit = true) : ch ≠ ',' := by
  intro he
  rw [he] at h
  exact absurd h (by decide)

theorem isDigit_ne_plus (ch : Char) (h : ch.isDigit = true) : ch ≠ '+' := by
  intro he
  rw [he] at h
  exact absurd h (by decide)

theorem isDigit_ne_minus (ch : Char) (h : ch.isDigit = true) : ch ≠ '-' := by
  intro he
  rw [he] at h
  exact absurd h (by decide)

theorem isDigit_ne_hash (ch : Char) (h : ch.isDigit = true) : ch ≠ '#' := by
  intro he
  rw [he] at h
  exact absurd h (by decide)

theorem isDigit_not_space (ch : Char) (h : ch.isDigit = true) : pyIsSpace ch = false := by
  cases hps : pyIsSpace ch
  · rfl
  · exfalso
    simp only [pyIsSpace, Bool.or_eq_true, decide_eq_true_eq] at hps
    rcases hps with h1 | h1 | h1 | h1 | h1 | h1 <;> rw [h1] at h <;> exact absurd h (by decide)

theorem dropWhile_eq_self_of {p : Char → Bool} (l : List Char)
    (h : ∀ ch ∈ l, p ch = false) : l.dropWhile p = l := by
  cases l with
  | nil => rfl
  | cons a l => simp [List.dropWhile_cons, h a (List.mem_cons_self a l)]

theorem pyStrip_eq_self (s : List Char) (h : ∀ ch ∈ s, pyIsSpace ch = false) :
    pyStrip s = s := by
  rw [pyStrip, dropWhile_eq_self_of s h,
    dropWhile_eq_self_of s.reverse (fun ch hm => h ch (List.mem_reverse.mp hm)),
    List.reverse_reverse]

theorem natRepr_ne_nil (n : Nat) : natRepr n ≠ [] := by
  rw [natRepr]
  split_ifs with h
  · simp
  · simp [Nat.digits_ne_nil_iff_ne_zero.mpr h]

theorem natRepr_all_digits (n : Nat) : ∀ ch ∈ natRepr n, ch.isDigit = true := by
  intro ch hm
  rw [natRepr] at hm
  split_ifs at hm with h
  · rcases List.mem_singleton.mp hm with rfl
    decide
  · rw [List.mem_reverse, List.mem_map] at hm
    obtain ⟨d, hd, rfl⟩ := hm
    exact digitChar_isDigit d (Nat.digits_lt_base (by norm_num) hd)

theorem digitsGo_digits (l : List Char) (h : ∀ ch ∈ l, ch.isDigit = true) (acc : Nat) :
    digitsGo acc l = some (l.foldl (fun a ch => 10 * a + digitVal ch) acc) := by
  induction l generalizing acc with
  | nil => rfl
  | cons ch rest ih =>
    have hstep : digitsGo acc (ch :: rest) = digitsGo (10 * acc + digitVal ch) rest := by
      rw [digitsGo.eq_def]
      simp [h ch (List.mem_cons_self ch rest)]
    rw [hstep, List.foldl_cons]
    exact ih (fun x hx => h x (List.mem_cons_of_mem ch hx)) _

theorem digitsVal_digits (l : List Char) (hne : l ≠ [])
    (h : ∀ ch ∈ l, ch.isDigit = true) :
    digitsVal l = some (l.foldl (fun a ch => 10 * a + digitVal ch) 0) := by
  cases l with
  | nil => exact absurd rfl hne
  | cons ch rest =>
    have hstep : digitsVal (ch :: rest) = digitsGo (digitVal ch) rest := by
      rw [digitsVal.eq_def]
      simp [h ch (List.mem_cons_self ch rest)]
    rw [hstep, digitsGo_digits rest (fun x hx => h x (List.mem_cons_of_mem ch hx)),
      List.foldl_cons]
    have h0 : 10 * 0 + digitVal ch = digitVal ch := by omega
    rw [h0]

theorem foldr_digitChar (ds : List Nat) (h : ∀ d ∈ ds, d < 10) :
    ds.foldr (fun d a => 10 * a + digitVal (digitChar d)) 0 =
      ds.foldr (fun d a => 10 * a + d) 0 := by
  induction ds with
  | nil => rfl
  | cons d ds ih =>
    rw [List.foldr_cons, List.foldr_cons,
      digitVal_digitChar d (h d (List.mem_cons_self d ds)),
      ih (fun x hx => h x (List.mem_cons_of_mem d hx))]

theorem foldr_eq_ofDigits (ds : List Nat) :
    ds.foldr (fun d a => 10 * a + d) 0 = Nat.ofDigits 10 ds := by
  induction ds with
  | nil => rfl
  | cons d ds ih =>
    rw [List.foldr_cons, ih, Nat.ofDigits_cons]
    omega

theorem natRepr_foldl (n : Nat) :
    (natRepr n).foldl (fun a ch => 10 * a + digitVal ch) 0 = n := by
  rw [natRepr]
  split_ifs with h
  · subst h
    rfl
  · rw [List.foldl_reverse]
    have h1 : ((Nat.digits 10 n).map digitChar).foldr
        (fun x a => 10 * a + digitVal x) 0 =
        (Nat.digits 10 n).foldr (fun d a => 10 * a + digitVal (digitChar d)) 0 :=
      List.foldr_map digitChar (fun x a => 10 * a + digitVal x) (Nat.digits 10 n) 0
    rw [h1, foldr_digitChar _ (fun d hd => Nat.digits_lt_base (by norm_num) hd),
      foldr_eq_ofDigits, Nat.ofDigits_digits]

theorem digitsVal_natRepr (n : Nat) : digitsVal (natRepr n) = some n := by
  rw [digitsVal_digits (natRepr n) (natRepr_ne_nil n) (natRepr_all_digits n),
    natRepr_foldl]

theorem splitComma_no_comma (l : List Char) (h : ∀ ch ∈ l, ch ≠ ',') :
    splitComma l = [l] := by
  induction l with
  | nil => rfl
  | cons ch rest ih =>
    rw [splitComma, if_neg (h ch (List.mem_cons_self ch rest)),
      ih (fun x hx => h x (List.mem_cons_of_mem ch hx))]
    rfl

theorem splitComma_append (a b : List Char) (ha : ∀ ch ∈ a, ch ≠ ',') :
    splitComma (a ++ ',' :: b) = a :: splitComma b := by
  induction a with
  | nil => rfl
  | cons ch rest ih =>
    rw [List.cons_append, splitComma, if_neg (ha ch (List.mem_cons_self ch rest)),
      ih (fun x hx => ha x (List.mem_cons_of_mem ch hx))]
    rfl

theorem pyInt_natRepr (n : Nat) : pyInt (natRepr n) = some (n : Int) := by
  have hid : pyStrip (natRepr n) = natRepr n :=
    pyStrip_eq_self _ (fun ch hm => isDigit_not_space ch (natRepr_all_digits n ch hm))
  obtain ⟨ch, tail, hcons⟩ : ∃ ch tail, natRepr n = ch :: tail := by
    cases hn : natRepr n with
    | nil => exact absurd hn (natRepr_ne_nil n)
    | cons x xs => exact ⟨x, xs, rfl⟩
  have hch : ch.isDigit = true :=
    natRepr_all_digits n ch (by rw [hcons]; exact List.mem_cons_self _ _)
  rw [pyInt, hid, hcons]
  have hplus : ch ≠ '+' := isDigit_ne_plus ch hch
  have hminus : ch ≠ '-' := isDigit_ne_minus ch hch
  have hmatch : (match ch :: tail with
      | '+' :: rest => (digitsVal rest).map (fun n => (n : Int))
      | '-' :: rest => (digitsVal rest).map (fun n => -(n : Int))
      | t => (digitsVal t).map (fun n => (n : Int))) =
      (digitsVal (ch :: tail)).map (fun n => (n : Int)) := by
    split
    · rename_i heq
      rw [List.cons.injEq] at heq
      exact absurd heq.1 hplus
    · rename_i heq
      rw [List.cons.injEq] at heq
      exact absurd heq.1 hminus
    · rfl
  rw [hmatch, ← hcons, digitsVal_natRepr]
  rfl

theorem parseLine_natRepr (x y : Nat) :
    parseLine (natRepr x ++ ',' :: natRepr y) = some ((x : Int), (y : Int)) := by
  rw [parseLine]
  have hsplit : splitComma (natRepr x ++ ',' :: natRepr y) = [natRepr x, natRepr y] := by
    rw [splitComma_append _ _
      (fun ch hm => isDigit_ne_comma ch (natRepr_all_digits x ch hm)),
      splitComma_no_comma _
      (fun ch hm => isDigit_ne_comma ch (natRepr_all_digits y ch hm))]
  rw [hsplit]
  simp only [pyInt_natRepr]

theorem mem_save_pattern (board : Board) (line : List Char) :
    line ∈ save_pattern board ↔
      line = ("# Pattern: Custom saved pattern").data ∨
      ∃ r, r < board.length ∧ ∃ c, c < (board.getD 0 []).length ∧
        cell board r c = 1 ∧ line = natRepr c ++ ',' :: natRepr r := by
  rw [save_pattern, List.mem_cons]
  constructor
  · rintro (h | h)
    · exact Or.inl h
    · right
      rw [List.mem_flatMap] at h
      obtain ⟨r, hr, hline⟩ := h
      rw [List.mem_map] at hline
      obtain ⟨c, hc, rfl⟩ := hline
      rw [List.mem_filter, List.mem_range] at hc
      exact ⟨r, List.mem_range.mp hr, c, hc.1, of_decide_eq_true hc.2, rfl⟩
  · rintro (h | ⟨r, hr, c, hc, hlive, rfl⟩)
    · exact Or.inl h
    · right
      rw [List.mem_flatMap]
      refine ⟨r, List.mem_range.mpr hr, ?_⟩
      rw [List.mem_map]
      refine ⟨c, ?_, rfl⟩
      rw [List.mem_filter, List.mem_range]
      exact ⟨hc, decide_eq_true hlive⟩

theorem saveLine_chars (x y : Nat) (ch : Char)
    (hm : ch ∈ natRepr x ++ ',' :: natRepr y) :
    ch.isDigit = true ∨ ch = ',' := by
  rw [List.mem_append, List.mem_cons] at hm
  rcases hm with hm | hm | hm
  · exact Or.inl (natRepr_all_digits x ch hm)
  · exact Or.inr hm
  · exact Or.inl (natRepr_all_digits y ch hm)

theorem saveLine_strip (x y : Nat) :
    pyStrip (natRepr x ++ ',' :: natRepr y) = natRepr x ++ ',' :: natRepr y := by
  refine pyStrip_eq_self _ (fun ch hm => ?_)
  rcases saveLine_chars x y ch hm with h | h
  · exact isDigit_not_space ch h
  · rw [h]
    decide

theorem saveLine_sets (w h : Int) (x y : Nat) (hx : (x : Int) < w) (hy : (y : Int) < h) :
    lineSets (natRepr x ++ ',' :: natRepr y) w h (x : Int) (y : Int) := by
  obtain ⟨ch, tail, hcons⟩ : ∃ ch tail, natRepr x = ch :: tail := by
    cases hn : natRepr x with
    | nil => exact absurd hn (natRepr_ne_nil x)
    | cons a as => exact ⟨a, as, rfl⟩
  have hch : ch.isDigit = true :=
    natRepr_all_digits x ch (by rw [hcons]; exact List.mem_cons_self _ _)
  refine ⟨?_, ?_, ?_, ?_, ?_, ?_⟩
  · rw [saveLine_strip]
    rintro (hnil | hhash)
    · rw [hcons] at hnil
      simp at hnil
    · rw [hcons, List.cons_append, List.headD_cons] at hhash
      exact isDigit_ne_hash ch hch hhash
  · rw [saveLine_strip]
    exact parseLine_natRepr x y
  · exact Int.natCast_nonneg y
  · exact hy
  · exact Int.natCast_nonneg x
  · exact hx

theorem header_not_sets (w h x y : Int) :
    ¬ lineSets (("# Pattern: Custom saved pattern").data) w h x y := by
  rintro ⟨hskip, -⟩
  exact hskip (by decide)

theorem load_step_dims (w h : Int) (st : Board × List LoadMsg) (rawLine : List Char) :
    (load_step w h st rawLine).1.length = st.1.length ∧
    ∀ r', ((load_step w h st rawLine).1.getD r' []).length = (st.1.getD r' []).length := by
  rw [load_step]
  split_ifs
  · exact ⟨rfl, fun _ => rfl⟩
  · split
    · split_ifs
      · exact ⟨setCell_length _ _ _ _, fun r' => length_getD_setCell _ _ _ _ _⟩
      · exact ⟨rfl, fun _ => rfl⟩
    · exact ⟨rfl, fun _ => rfl⟩

theorem load_step_cell (w h : Int) (st : Board × List LoadMsg) (rawLine : List Char)
    (r c : Nat) (hbl : st.1.length = h.toNat)
    (hbr : ∀ r' < h.toNat, (st.1.getD r' []).length = w.toNat) :
    cell (load_step w h st rawLine).1 r c =
      if lineSets rawLine w h (c : Int) (r : Int) then 1 else cell st.1 r c := by
  rw [load_step]
  by_cases hskip : pyStrip rawLine = [] ∨ (pyStrip rawLine).headD ' ' = '#'
  · rw [if_pos hskip, if_neg (fun hs => hs.1 hskip)]
  · rw [if_neg hskip]
    cases hparse : parseLine (pyStrip rawLine) with
    | none =>
      have hnot : ¬ lineSets rawLine w h (c : Int) (r : Int) := by
        intro hs
        have h2 := hs.2.1
        rw [hparse] at h2
        exact Option.noConfusion h2
      dsimp only
      exact (if_neg hnot).symm
    | some xy =>
      obtain ⟨x, y⟩ := xy
      dsimp only
      by_cases hbounds : 0 ≤ y ∧ y < h ∧ 0 ≤ x ∧ x < w
      · obtain ⟨hy0, hyh, hx0, hxw⟩ := hbounds
        rw [if_pos ⟨hy0, hyh, hx0, hxw⟩]
        by_cases hxy : x = (c : Int) ∧ y = (r : Int)
        · obtain ⟨rfl, rfl⟩ := hxy
          rw [if_pos ⟨hskip, hparse, hy0, hyh, hx0, hxw⟩, Int.toNat_ofNat, Int.toNat_ofNat]
          exact cell_setCell_self _ _ _ _ (by rw [hbl]; omega)
            (by rw [hbr r (by omega)]; omega)
        · have hnot : ¬ lineSets rawLine w h (c : Int) (r : Int) := by
            intro hs
            have h2 := hs.2.1
            rw [hparse, Option.some.injEq, Prod.mk.injEq] at h2
            exact hxy h2
          rw [if_neg hnot]
          refine cell_setCell_ne _ _ _ _ _ _ ?_
          rintro ⟨rfl, rfl⟩
          exact hxy ⟨(Int.toNat_of_nonneg hx0).symm ▸ rfl, (Int.toNat_of_nonneg hy0).symm ▸ rfl⟩
      · rw [if_neg hbounds]
        have hnot : ¬ lineSets rawLine w h (c : Int) (r : Int) := by
          intro hs
          have h2 := hs.2.1
          rw [hparse, Option.some.injEq, Prod.mk.injEq] at h2
          obtain ⟨rfl, rfl⟩ := h2
          exact hbounds ⟨hs.2.2.1, hs.2.2.2.1, hs.2.2.2.2.1, hs.2.2.2.2.2⟩
        rw [if_neg hnot]

theorem load_step_msgs (w h : Int) (st : Board × List LoadMsg) (rawLine : List Char) :
    (load_step w h st rawLine).2 = st.2 ++ (lineWarn rawLine).toList := by
  rw [load_step, lineWarn]
  by_cases hskip : pyStrip rawLine = [] ∨ (pyStrip rawLine).headD ' ' = '#'
  · rw [if_pos hskip, if_neg (fun hx => hx.1 hskip)]
    simp
  · rw [if_neg hskip]
    cases hparse : parseLine (pyStrip rawLine) with
    | none =>
      rw [if_pos ⟨hskip, rfl⟩]
      rfl
    | some xy =>
      obtain ⟨x, y⟩ := xy
      dsimp only
      split_ifs <;> simp_all

theorem load_fold_spec (w h : Int) (lines : List (List Char)) :
    ∀ (b0 : Board) (ms0 : List LoadMsg),
      b0.length = h.toNat → (∀ r' < h.toNat, (b0.getD r' []).length = w.toNat) →
      (lines.foldl (load_step w h) (b0, ms0)).1.length = b0.length ∧
      (∀ r', ((lines.foldl (load_step w h) (b0, ms0)).1.getD r' []).length
        = (b0.getD r' []).length) ∧
      (∀ r c : Nat, cell (lines.foldl (load_step w h) (b0, ms0)).1 r c =
        if ∃ line ∈ lines, lineSets line w h (c : Int) (r : Int) then 1
        else cell b0 r c) ∧
      (lines.foldl (load_step w h) (b0, ms0)).2 = ms0 ++ lines.filterMap lineWarn := by
  induction lines with
  | nil =>
    intro b0 ms0 _ _
    refine ⟨rfl, fun _ => rfl, ?_, by simp⟩
    intro r c
    rw [if_neg (by simp)]
    rfl
  | cons line rest ih =>
    intro b0 ms0 hbl hbr
    rw [List.foldl_cons]
    obtain ⟨slen, srowlen⟩ := load_step_dims w h (b0, ms0) line
    have hbl1 : (load_step w h (b0, ms0) line).1.length = h.toNat := by rw [slen]; exact hbl
    have hbr1 : ∀ r' < h.toNat, ((load_step w h (b0, ms0) line).1.getD r' []).length = w.toNat := by
      intro r' hr'
      rw [srowlen]
      exact hbr r' hr'
    obtain ⟨ilen, irowlen, icells, imsgs⟩ :=
      ih (load_step w h (b0, ms0) line).1 (load_step w h (b0, ms0) line).2 hbl1 hbr1
    refine ⟨by rw [ilen, slen], fun r' => by rw [irowlen, srowlen], ?_, ?_⟩
    · intro r c
      rw [icells r c]
      have hstep := load_step_cell w h (b0, ms0) line r c hbl hbr
      by_cases hrest : ∃ l ∈ rest, lineSets l w h (c : Int) (r : Int)
      · obtain ⟨l, hl, hs⟩ := hrest
        rw [if_pos ⟨l, hl, hs⟩, if_pos ⟨l, List.mem_cons_of_mem _ hl, hs⟩]
      · rw [if_neg hrest, hstep]
        by_cases hline : lineSets line w h (c : Int) (r : Int)
        · rw [if_pos hline, if_pos ⟨line, List.mem_cons_self _ _, hline⟩]
        · rw [if_neg hline, if_neg ?_]
          rintro ⟨l, hl, hsets⟩
          rcases List.mem_cons.mp hl with rfl | hl
          · exact hline hsets
          · exact hrest ⟨l, hl, hsets⟩
    · rw [imsgs, load_step_msgs, List.filterMap_cons]
      cases lineWarn line <;> simp

theorem load_pattern_some_eq (w h : Int) (lines : List (List Char)) :
    load_pattern (some lines) w h
      = lines.foldl (load_step w h) (create_board w h, []) := rfl

theorem load_pattern_some_spec (w h : Int) (lines : List (List Char)) :
    (load_pattern (some lines) w h).1.length = h.toNat ∧
    (∀ r' < h.toNat, ((load_pattern (some lines) w h).1.getD r' []).length = w.toNat) ∧
    (∀ r c : Nat, cell (load_pattern (some lines) w h).1 r c =
      if ∃ line ∈ lines, lineSets line w h (c : Int) (r : Int) then 1 else 0) ∧
    (load_pattern (some lines) w h).2 = lines.filterMap lineWarn := by
  obtain ⟨l1, l2, l3, l4⟩ := load_fold_spec w h lines (create_board w h) []
    (create_board_length w h) (fun r' hr' => create_board_row_length w h r' hr')
  rw [load_pattern_some_eq]
  refine ⟨l1.trans (create_board_length w h), ?_, ?_, by rw [l4]; rfl⟩
  · intro r' hr'
    rw [l2 r']
    exact create_board_row_length w h r' hr'
  · intro r c
    rw [l3 r c, cell_create_board]

/-- Round trip: a cell of the board loaded back from `save_pattern`'s output
(with matching dimensions) is 1 exactly when the original cell is 1. -/
theorem roundtrip_cell (board : Board) (hrect : rectangular board) (r c : Nat)
    (hr : r < board.length) (hc : c < (board.getD 0 []).length) :
    cell (load_pattern (some (save_pattern board))
      (((board.getD 0 []).length : Int)) ((board.length : Int))).1 r c = 1 ↔
    cell board r c = 1 := by
  obtain ⟨-, -, l3, -⟩ :=
    load_pattern_some_spec ((board.getD 0 []).length : Int) (board.length : Int)
      (save_pattern board)
  rw [l3 r c]
  constructor
  · intro h1
    by_cases hex : ∃ line ∈ save_pattern board,
        lineSets line ((board.getD 0 []).length : Int) (board.length : Int) (c : Int) (r : Int)
    · obtain ⟨line, hmem, hsets⟩ := hex
      rcases (mem_save_pattern board line).mp hmem with rfl | ⟨r', hr', c', hc', hlive, rfl⟩
      · exact absurd hsets (header_not_sets _ _ _ _)
      · have hp := hsets.2.1
        rw [saveLine_strip, parseLine_natRepr, Option.some.injEq, Prod.mk.injEq] at hp
        obtain ⟨hcc, hrr⟩ := hp
        have hc2 : c' = c := by exact_mod_cast hcc
        have hr2 : r' = r := by exact_mod_cast hrr
        rw [← hc2, ← hr2]
        exact hlive
    · rw [if_neg hex] at h1
      exact absurd h1 (by norm_num)
  · intro hlive
    rw [if_pos ⟨natRepr c ++ ',' :: natRepr r,
      (mem_save_pattern board _).mpr (Or.inr ⟨r, hr, c, hc, hlive, rfl⟩),
      saveLine_sets _ _ c r (by exact_mod_cast hc) (by exact_mod_cast hr)⟩]

theorem normalize_length (b : Board) : (normalizeBoard b).length = b.length :=
  List.length_map _ _

theorem getD_normalize (b : Board) (r : Nat) :
    (normalizeBoard b).getD r [] = (b.getD r []).map (fun v => if v = 1 then 1 else 0) := by
  induction b generalizing r with
  | nil => cases r <;> rfl
  | cons row rows ih =>
    cases r with
    | zero => rfl
    | succ r =>
      rw [show normalizeBoard (row :: rows)
          = (row.map fun v => if v = 1 then 1 else 0) :: normalizeBoard rows from rfl,
        List.getD_cons_succ, List.getD_cons_succ]
      exact ih r

theorem cell_normalize (b : Board) (r c : Nat) :
    cell (normalizeBoard b) r c = if cell b r c = 1 then 1 else 0 := by
  rw [cell, cell, getD_normalize]
  rcases Nat.lt_or_ge c (b.getD r []).length with hc | hc
  · rw [List.getD_eq_getElem ((b.getD r []).map _) 0 (by rw [List.length_map]; exact hc),
      List.getD_eq_getElem (b.getD r []) 0 hc, List.getElem_map]
  · rw [List.getD_eq_default ((b.getD r []).map _) 0 (by rw [List.length_map]; exact hc),
      List.getD_eq_default (b.getD r []) 0 hc]
    rfl

theorem normalize_row0_length (b : Board) :
    ((normalizeBoard b).getD 0 []).length = (b.getD 0 []).length := by
  rw [getD_normalize, List.length_map]

theorem cell_normalize_eq_one (b : Board) (r c : Nat) :
    cell (normalizeBoard b) r c = 1 ↔ cell b r c = 1 := by
  rw [cell_normalize]
  split_ifs with h
  · exact ⟨fun _ => h, fun _ => rfl⟩
  · exact ⟨fun h0 => absurd h0 (by norm_num), fun h1 => absurd h1 h⟩

theorem liveInGrid_normalize (b : Board) (r c : Nat) (p : Int × Int) :
    liveInGrid (normalizeBoard b) r c p ↔ liveInGrid b r c p := by
  rw [liveInGrid, liveInGrid, normalize_length, normalize_row0_length,
    cell_normalize_eq_one]

theorem count_normalize (b : Board) (r c : Nat) :
    count_live_neighbors (normalizeBoard b) r c = count_live_neighbors b r c := by
  rw [count_live_neighbors_eq_spec, count_live_neighbors_eq_spec,
    spec_neighbor_count, spec_neighbor_count,
    List.filter_congr (fun p _ => decide_eq_decide.mpr (liveInGrid_normalize b r c p))]

theorem ruleVal_normalize (b : Board) (r c : Nat) :
    ruleVal (normalizeBoard b) r c = ruleVal b r c := by
  rw [ruleVal, ruleVal, count_normalize]
  by_cases h : cell b r c = 1
  · rw [if_pos ((cell_normalize_eq_one b r c).mpr h), if_pos h]
  · rw [if_neg (fun hx => h ((cell_normalize_eq_one b r c).mp hx)), if_neg h]

theorem next_board_state_normalize (b : Board) :
    next_board_state (normalizeBoard b) = next_board_state b := by
  apply List.ext_getElem
  · rw [next_board_state_length, next_board_state_length, normalize_length]
  · intro r h1 h2
    apply List.ext_getElem
    · have hr : r < b.length := by
        rw [next_board_state_length] at h2
        exact h2
      have hrn : r < (normalizeBoard b).length := by rw [normalize_length]; exact hr
      rw [← List.getD_eq_getElem (next_board_state (normalizeBoard b)) []
          (by rw [next_board_state_length]; exact hrn),
        ← List.getD_eq_getElem (next_board_state b) []
          (by rw [next_board_state_length]; exact hr),
        next_board_state_row_length (normalizeBoard b) r hrn,
        next_board_state_row_length b r hr, normalize_row0_length]
    · intro c hc1 hc2
      have hr : r < b.length := by
        rw [next_board_state_length] at h2
        exact h2
      have hrn : r < (normalizeBoard b).length := by rw [normalize_length]; exact hr
      have hcb : c < (b.getD 0 []).length := by
        have := hc2
        rw [← List.getD_eq_getElem (next_board_state b) []
          (by rw [next_board_state_length]; exact hr),
          next_board_state_row_length b r hr] at this
        exact this
      have hcn : c < ((normalizeBoard b).getD 0 []).length := by
        rw [normalize_row0_length]
        exact hcb
      have e1 : (next_board_state (normalizeBoard b))[r][c] = cell (next_board_state (normalizeBoard b)) r c := by
        rw [cell, List.getD_eq_getElem (next_board_state (normalizeBoard b)) []
            (by rw [next_board_state_length]; exact hrn),
          List.getD_eq_getElem _ 0 hc1]
      have e2 : (next_board_state b)[r][c] = cell (next_board_state b) r c := by
        rw [cell, List.getD_eq_getElem (next_board_state b) []
            (by rw [next_board_state_length]; exact hr),
          List.getD_eq_getElem _ 0 hc2]
      rw [e1, e2, next_board_state_cell (normalizeBoard b) r c hrn hcn,
        next_board_state_cell b r c hr hcb, ruleVal_normalize]

theorem fill_inner_dims (density : Rat) (rand : Nat → Rat) (r : Nat) (m : Nat) :
    ∀ (b : Board) (k : Nat),
      ((List.range m).foldl (fun (st : Board × Nat) c =>
          if rand st.2 < density then (setCell st.1 r c 1, st.2 + 1)
          else (setCell st.1 r c 0, st.2 + 1)) (b, k)).1.length = b.length ∧
      (∀ r', (((List.range m).foldl (fun (st : Board × Nat) c =>
          if rand st.2 < density then (setCell st.1 r c 1, st.2 + 1)
          else (setCell st.1 r c 0, st.2 + 1)) (b, k)).1.getD r' []).length
        = (b.getD r' []).length) := by
  induction m with
  | zero => exact fun b k => ⟨rfl, fun _ => rfl⟩
  | succ m ih =>
    intro b k
    rw [List.range_succ, List.foldl_append, List.foldl_cons, List.foldl_nil]
    obtain ⟨ilen, irowlen⟩ := ih b k
    rw [fill_step_eq]
    exact ⟨by rw [setCell_length, ilen],
      fun r' => by rw [length_getD_setCell, irowlen]⟩

theorem fill_outer_dims (board : Board) (density : Rat) (rand : Nat → Rat) (m : Nat) :
    ((List.range m).foldl (fun st r =>
        (List.range (board.getD 0 []).length).foldl (fun (st : Board × Nat) c =>
          if rand st.2 < density then (setCell st.1 r c 1, st.2 + 1)
          else (setCell st.1 r c 0, st.2 + 1)) st) ((board, 0) : Board × Nat)).1.length
      = board.length ∧
    (∀ r', (((List.range m).foldl (fun st r =>
        (List.range (board.getD 0 []).length).foldl (fun (st : Board × Nat) c =>
          if rand st.2 < density then (setCell st.1 r c 1, st.2 + 1)
          else (setCell st.1 r c 0, st.2 + 1)) st) ((board, 0) : Board × Nat)).1.getD r' []).length
      = (board.getD r' []).length) := by
  induction m with
  | zero => exact ⟨rfl, fun _ => rfl⟩
  | succ m ih =>
    rw [List.range_succ, List.foldl_append, List.foldl_cons, List.foldl_nil]
    obtain ⟨ilen, irowlen⟩ := ih
    set stm := (List.range m).foldl (fun st r =>
        (List.range (board.getD 0 []).length).foldl (fun (st : Board × Nat) c =>
          if rand st.2 < density then (setCell st.1 r c 1, st.2 + 1)
          else (setCell st.1 r c 0, st.2 + 1)) st) ((board, 0) : Board × Nat) with hstm
    obtain ⟨jlen, jrowlen⟩ := fill_inner_dims density rand m (board.getD 0 []).length stm.1 stm.2
    exact ⟨by rw [jlen, ilen], fun r' => by rw [jrowlen, irowlen]⟩

theorem random_fill_dims (board : Board) (density : Rat) (rand : Nat → Rat) :
    (random_fill_board board density rand).length = board.length ∧
    (∀ r', ((random_fill_board board density rand).getD r' []).length
      = (board.getD r' []).length) := by
  rw [random_fill_board]
  exact fill_outer_dims board density rand board.length

/-! ### Claim theorems -/

/-- C1: for every rectangular 0/1 grid, `next_board_state` applies the
B3/S23 rule at every cell `(r, c)`: a live cell (value 1) is 1 in the next
generation exactly when its live-neighbor count is 2 or 3 (and 0 otherwise);
a dead cell (value 0) is 1 exactly when its live-neighbor count is 3 (and 0
otherwise). -/
theorem next_board_state_b3s23 (board : Board) (r c : Nat)
    (hrect : rectangular board)
    (hbin : ∀ row ∈ board, ∀ v ∈ row, v = 0 ∨ v = 1)
    (hr : r < board.length) (hc : c < (board.getD 0 []).length) :
    (cell board r c = 1 →
      (cell (next_board_state board) r c = 1 ↔
        (count_live_neighbors board r c = 2 ∨ count_live_neighbors board r c = 3)) ∧
      (cell (next_board_state board) r c = 0 ↔
        ¬(count_live_neighbors board r c = 2 ∨ count_live_neighbors board r c = 3))) ∧
    (cell board r c = 0 →
      (cell (next_board_state board) r c = 1 ↔ count_live_neighbors board r c = 3) ∧
      (cell (next_board_state board) r c = 0 ↔ count_live_neighbors board r c ≠ 3)) := by
  have hcell := next_board_state_cell board r c hr hc
  constructor
  · intro h1
    rw [hcell, ruleVal, if_pos h1]
    constructor <;> (split_ifs with hln <;> omega)
  · intro h0
    rw [hcell, ruleVal, if_neg (by rw [h0]; norm_num)]
    constructor <;> (split_ifs with hln <;> omega)

theorem next_board_state_b3s23_witness :
    (rectangular [[1, 1], [1, 0]] ∧
      (∀ row ∈ ([[1, 1], [1, 0]] : Board), ∀ v ∈ row, v = 0 ∨ v = 1) ∧
      0 < ([[1, 1], [1, 0]] : Board).length ∧
      1 < (([[1, 1], [1, 0]] : Board).getD 0 []).length) ∧
    ((cell [[1, 1], [1, 0]] 0 1 = 1 →
      (cell (next_board_state [[1, 1], [1, 0]]) 0 1 = 1 ↔
        (count_live_neighbors [[1, 1], [1, 0]] 0 1 = 2 ∨
          count_live_neighbors [[1, 1], [1, 0]] 0 1 = 3)) ∧
      (cell (next_board_state [[1, 1], [1, 0]]) 0 1 = 0 ↔
        ¬(count_live_neighbors [[1, 1], [1, 0]] 0 1 = 2 ∨
          count_live_neighbors [[1, 1], [1, 0]] 0 1 = 3))) ∧
    (cell [[1, 1], [1, 0]] 0 1 = 0 →
      (cell (next_board_state [[1, 1], [1, 0]]) 0 1 = 1 ↔
        count_live_neighbors [[1, 1], [1, 0]] 0 1 = 3) ∧
      (cell (next_board_state [[1, 1], [1, 0]]) 0 1 = 0 ↔
        count_live_neighbors [[1, 1], [1, 0]] 0 1 ≠ 3))) :=
  ⟨⟨by decide, by decide, by decide, by decide⟩,
    next_board_state_b3s23 [[1, 1], [1, 0]] 0 1 (by decide) (by decide) (by decide) (by decide)⟩

/-- C2: the live-neighbor count equals the number of live cells among the 8
offsets `(−1..1, −1..1)` excluding `(0,0)` that fall inside
`[0,height)×[0,width)` (dead boundary, no wraparound); in particular a lone
live cell at corner `(0,0)` is dead after one generation. -/
theorem count_live_neighbors_dead_boundary (board : Board)
    (hrect : rectangular board)
    (hrows : 0 < board.length) (hcols : 0 < (board.getD 0 []).length)
    (hlive : cell board 0 0 = 1)
    (hlone : ∀ r c : Nat, r < board.length → c < (board.getD 0 []).length →
      ¬(r = 0 ∧ c = 0) → cell board r c ≠ 1) :
    (∀ (b : Board) (r c : Nat),
      count_live_neighbors b r c = spec_neighbor_count b r c) ∧
    cell (next_board_state board) 0 0 = 0 := by
  refine ⟨fun b r c => count_live_neighbors_eq_spec b r c, ?_⟩
  have hcount : count_live_neighbors board 0 0 = 0 := by
    rw [count_live_neighbors_eq_spec, spec_neighbor_count]
    have hnil : neighborOffsets.filter
        (fun p => decide (liveInGrid board 0 0 p)) = [] := by
      rw [List.filter_eq_nil_iff]
      intro p hp
      rw [Bool.not_eq_true, decide_eq_false_iff_not]
      fin_cases hp
      · rintro ⟨h1, -⟩
        norm_num at h1
      · rintro ⟨h1, -⟩
        norm_num at h1
      · rintro ⟨h1, -⟩
        norm_num at h1
      · rintro ⟨-, -, h3, -⟩
        norm_num at h3
      · rintro ⟨-, -, -, h4, h5⟩
        refine hlone 0 1 hrows ?_ (by norm_num) ?_
        · dsimp only at h4
          omega
        · simpa using h5
      · rintro ⟨-, -, h3, -⟩
        norm_num at h3
      · rintro ⟨-, h2, -, -, h5⟩
        refine hlone 1 0 ?_ hcols (by norm_num) ?_
        · dsimp only at h2
          omega
        · simpa using h5
      · rintro ⟨-, h2, -, h4, h5⟩
        refine hlone 1 1 ?_ ?_ (by norm_num) ?_
        · dsimp only at h2
          omega
        · dsimp only at h4
          omega
        · simpa using h5
    rw [hnil]
    rfl
  rw [next_board_state_cell board 0 0 hrows hcols, ruleVal, if_pos hlive,
    if_pos (by omega : count_live_neighbors board 0 0 < 2 ∨
      3 < count_live_neighbors board 0 0)]

theorem count_live_neighbors_dead_boundary_witness :
    (rectangular [[1]] ∧ 0 < ([[1]] : Board).length ∧
      0 < (([[1]] : Board).getD 0 []).length ∧ cell [[1]] 0 0 = 1 ∧
      (∀ r c : Nat, r < ([[1]] : Board).length →
        c < (([[1]] : Board).getD 0 []).length → ¬(r = 0 ∧ c = 0) →
        cell [[1]] r c ≠ 1)) ∧
    ((∀ (b : Board) (r c : Nat),
      count_live_neighbors b r c = spec_neighbor_count b r c) ∧
      cell (next_board_state [[1]]) 0 0 = 0) :=
  ⟨⟨by decide, by decide, by decide, by decide,
      fun r c hr hc hne => absurd ⟨by simp at hr; omega, by simp at hc; omega⟩ hne⟩,
    count_live_neighbors_dead_boundary [[1]] (by decide) (by decide) (by decide)
      (by decide)
      (fun r c hr hc hne => absurd ⟨by simp at hr; omega, by simp at hc; omega⟩ hne)⟩

/-- C3: saving a (nonempty rectangular) grid with `save_pattern` and loading
the output back with the same width and height yields a grid of the same
dimensions whose live cells are exactly the original's. -/
theorem save_load_roundtrip (board : Board) (hrect : rectangular board)
    (hne : board ≠ []) :
    (load_pattern (some (save_pattern board))
      ((board.getD 0 []).length : Int) (board.length : Int)).1.length
      = board.length ∧
    (∀ r < board.length,
      ((load_pattern (some (save_pattern board))
        ((board.getD 0 []).length : Int) (board.length : Int)).1.getD r []).length
        = (board.getD r []).length) ∧
    (∀ r c : Nat, r < board.length → c < (board.getD 0 []).length →
      (cell (load_pattern (some (save_pattern board))
        ((board.getD 0 []).length : Int) (board.length : Int)).1 r c = 1 ↔
        cell board r c = 1)) := by
  obtain ⟨l1, l2, -, -⟩ :=
    load_pattern_some_spec ((board.getD 0 []).length : Int) (board.length : Int)
      (save_pattern board)
  refine ⟨by rw [l1, Int.toNat_ofNat], ?_, ?_⟩
  · intro r hr
    rw [l2 r (by rw [Int.toNat_ofNat]; exact hr), Int.toNat_ofNat,
      rect_row_length board hrect r hr]
  · intro r c hr hc
    exact roundtrip_cell board hrect r c hr hc

theorem save_load_roundtrip_witness :
    (rectangular [[1, 0], [0, 1]] ∧ ([[1, 0], [0, 1]] : Board) ≠ []) ∧
    ((load_pattern (some (save_pattern [[1, 0], [0, 1]]))
      ((([[1, 0], [0, 1]] : Board).getD 0 []).length : Int)
      (([[1, 0], [0, 1]] : Board).length : Int)).1.length
      = ([[1, 0], [0, 1]] : Board).length ∧
    (∀ r < ([[1, 0], [0, 1]] : Board).length,
      ((load_pattern (some (save_pattern [[1, 0], [0, 1]]))
        ((([[1, 0], [0, 1]] : Board).getD 0 []).length : Int)
        (([[1, 0], [0, 1]] : Board).length : Int)).1.getD r []).length
        = (([[1, 0], [0, 1]] : Board).getD r []).length) ∧
    (∀ r c : Nat, r < ([[1, 0], [0, 1]] : Board).length →
      c < (([[1, 0], [0, 1]] : Board).getD 0 []).length →
      (cell (load_pattern (some (save_pattern [[1, 0], [0, 1]]))
        ((([[1, 0], [0, 1]] : Board).getD 0 []).length : Int)
        (([[1, 0], [0, 1]] : Board).length : Int)).1 r c = 1 ↔
        cell [[1, 0], [0, 1]] r c = 1))) :=
  ⟨⟨by decide, by decide⟩,
    save_load_roundtrip [[1, 0], [0, 1]] (by decide) (by decide)⟩

/-- C4: `next_board_state` leaves its input unmodified (the `board`
component of the run state is unchanged by the loop, which writes only to
`new_board`), and the returned grid is a fresh grid with the input's height
and row lengths. -/
theorem next_board_state_no_mutation (board : Board) (hrect : rectangular board) :
    (next_run board).board = board ∧
    next_board_state board = (next_run board).new_board ∧
    (next_board_state board).length = board.length ∧
    (∀ r < board.length,
      ((next_board_state board).getD r []).length = (board.getD r []).length) := by
  refine ⟨next_run_board_eq board, rfl, next_board_state_length board, ?_⟩
  intro r hr
  rw [next_board_state_row_length board r hr, rect_row_length board hrect r hr]

theorem next_board_state_no_mutation_witness :
    rectangular [[1, 1], [1, 0]] ∧
    ((next_run [[1, 1], [1, 0]]).board = [[1, 1], [1, 0]] ∧
    next_board_state [[1, 1], [1, 0]] = (next_run [[1, 1], [1, 0]]).new_board ∧
    (next_board_state [[1, 1], [1, 0]]).length = ([[1, 1], [1, 0]] : Board).length ∧
    (∀ r < ([[1, 1], [1, 0]] : Board).length,
      ((next_board_state [[1, 1], [1, 0]]).getD r []).length
        = (([[1, 1], [1, 0]] : Board).getD r []).length)) :=
  ⟨by decide, next_board_state_no_mutation [[1, 1], [1, 0]] (by decide)⟩

/-- C5: `load_pattern` skips malformed lines with a warning and silently
discards out-of-bounds pairs, continuing with the remaining lines — a cell
is set exactly when some line parses, in bounds, to its coordinates, and the
warnings are exactly the per-line parse failures; concretely, a file with one
in-bounds line `3,4`, one malformed line `abc` and one out-of-bounds line
`9999,9999` loads into a 10×10 grid with exactly cell `(4, 3)` alive and one
warning for `abc`. -/
theorem load_pattern_resilience :
    (∀ (lines : List (List Char)) (w h : Int) (r c : Nat),
      cell (load_pattern (some lines) w h).1 r c =
        if ∃ line ∈ lines, lineSets line w h (c : Int) (r : Int) then 1 else 0) ∧
    (∀ (lines : List (List Char)) (w h : Int),
      (load_pattern (some lines) w h).2 = lines.filterMap lineWarn) ∧
    (load_pattern (some [("3,4").data, ("abc").data, ("9999,9999").data]) 10 10).1
      = setCell (create_board 10 10) 4 3 1 ∧
    (load_pattern (some [("3,4").data, ("abc").data, ("9999,9999").data]) 10 10).2
      = [LoadMsg.parseWarning ("abc").data] := by
  refine ⟨?_, ?_, by decide, by decide⟩
  · intro lines w h r c
    exact (load_pattern_some_spec w h lines).2.2.1 r c
  · intro lines w h
    exact (load_pattern_some_spec w h lines).2.2.2

/-- C6: loading from a missing file returns an all-dead grid of the
requested dimensions together with a non-fatal `FileNotFound` report — no
exception escapes to the caller. -/
theorem load_pattern_file_not_found (w h : Int) :
    (load_pattern none w h).1 = create_board w h ∧
    (load_pattern none w h).1.length = h.toNat ∧
    (∀ r' < h.toNat, ((load_pattern none w h).1.getD r' []).length = w.toNat) ∧
    (∀ r c : Nat, cell (load_pattern none w h).1 r c = 0) ∧
    (load_pattern none w h).2 = [LoadMsg.fileNotFound] :=
  ⟨rfl, create_board_length w h, fun r' hr' => create_board_row_length w h r' hr',
    fun r c => cell_create_board w h r c, rfl⟩

/-- C7 counterexample: the spec's `create` contract demands an
`InvalidDimension` failure for `width = 0`, but `create_board 0 3` happily
produces a grid of three empty rows — no validation exists in the source. -/
theorem create_board_missing_validation :
    create_spec 0 3 = Except.error LifeError.invalidDimension ∧
    create_board 0 3 = [[], [], []] := by
  constructor
  · rfl
  · decide

/-- C7 amended: `create_board` returns an all-dead grid with `max h 0` rows
of `max w 0` zeros each; it never fails — for positive dimensions it agrees
with the spec's `create` contract, and for non-positive width or height it
returns a degenerate grid instead of an `InvalidDimension` error. -/
theorem create_board_amended (w h : Int) :
    (create_board w h).length = h.toNat ∧
    (∀ row ∈ create_board w h, row.length = w.toNat ∧ ∀ v ∈ row, v = 0) ∧
    (0 < w → 0 < h → create_spec w h = Except.ok (create_board w h)) := by
  refine ⟨create_board_length w h, ?_, ?_⟩
  · intro row hrow
    rw [create_board] at hrow
    obtain rfl := List.eq_of_mem_replicate hrow
    exact ⟨List.length_replicate _ _, fun v hv => List.eq_of_mem_replicate hv⟩
  · intro hw hh
    rw [create_spec, if_neg (by omega), create_board]

theorem create_board_amended_witness :
    ((create_board 2 3).length = (3 : Int).toNat ∧
      (∀ row ∈ create_board 2 3, row.length = (2 : Int).toNat ∧ ∀ v ∈ row, v = 0) ∧
      ((0 : Int) < 2 → (0 : Int) < 3 → create_spec 2 3 = Except.ok (create_board 2 3))) ∧
    (0 : Int) < 2 ∧ (0 : Int) < 3 ∧ create_spec 2 3 = Except.ok (create_board 2 3) :=
  ⟨create_board_amended 2 3,
    by decide, by decide, (create_board_amended 2 3).2.2 (by decide) (by decide)⟩

/-- C8 counterexample: the spec demands an `InvalidDensity` failure for a
density outside `[0,1]` with the grid untouched, but `random_fill_board`
accepts density 2 and overwrites the grid (here `[[0]]` becomes `[[1]]`). -/
theorem random_fill_missing_validation :
    random_fill_spec [[0]] 2 (fun _ => 0) = Except.error LifeError.invalidDensity ∧
    random_fill_board [[0]] 2 (fun _ => 0) = [[1]] ∧
    random_fill_board [[0]] 2 (fun _ => 0) ≠ [[0]] := by
  refine ⟨?_, by decide, by decide⟩
  rw [random_fill_spec, if_pos (Or.inr (by norm_num))]

/-- C8 amended: `random_fill_board` performs no density validation:
out-of-range densities are accepted and every cell is overwritten — with
draws in `[0,1)`, any density above 1 makes every cell 1 and any density
below 0 makes every cell 0, with the grid dimensions preserved. -/
theorem random_fill_out_of_range (board : Board) (density : Rat) (rand : Nat → Rat)
    (hrect : rectangular board) (hrand : ∀ k, 0 ≤ rand k ∧ rand k < 1) :
    (random_fill_board board density rand).length = board.length ∧
    (∀ r', ((random_fill_board board density rand).getD r' []).length
      = (board.getD r' []).length) ∧
    (1 < density → ∀ r c : Nat, r < board.length → c < (board.getD 0 []).length →
      cell (random_fill_board board density rand) r c = 1) ∧
    (density < 0 → ∀ r c : Nat, r < board.length → c < (board.getD 0 []).length →
      cell (random_fill_board board density rand) r c = 0) := by
  obtain ⟨hlen0, hrow0⟩ := random_fill_dims board density rand
  refine ⟨hlen0, hrow0, ?_, ?_⟩
  · intro hd r c hr hc
    obtain ⟨-, -, hcells⟩ := random_fill_const board density rand 1
      (fun k => if_pos (lt_trans (hrand k).2 hd)) hrect
    exact hcells r c hr hc
  · intro hd r c hr hc
    obtain ⟨-, -, hcells⟩ := random_fill_const board density rand 0
      (fun k => if_neg (fun hlt => absurd (lt_trans hlt hd)
        (not_lt.mpr (hrand k).1))) hrect
    exact hcells r c hr hc

theorem random_fill_out_of_range_witness :
    (rectangular [[5, 7]] ∧ (∀ k : Nat, 0 ≤ (fun _ : Nat => (0 : Rat)) k ∧
      (fun _ : Nat => (0 : Rat)) k < 1)) ∧
    ((random_fill_board [[5, 7]] 2 (fun _ => 0)).length = ([[5, 7]] : Board).length ∧
    (∀ r', ((random_fill_board [[5, 7]] 2 (fun _ => 0)).getD r' []).length
      = (([[5, 7]] : Board).getD r' []).length) ∧
    ((1 : Rat) < 2 → ∀ r c : Nat, r < ([[5, 7]] : Board).length →
      c < (([[5, 7]] : Board).getD 0 []).length →
      cell (random_fill_board [[5, 7]] 2 (fun _ => 0)) r c = 1) ∧
    ((2 : Rat) < 0 → ∀ r c : Nat, r < ([[5, 7]] : Board).length →
      c < (([[5, 7]] : Board).getD 0 []).length →
      cell (random_fill_board [[5, 7]] 2 (fun _ => 0)) r c = 0)) :=
  ⟨⟨by decide, fun k => ⟨le_refl 0, by norm_num⟩⟩,
    random_fill_out_of_range [[5, 7]] 2 (fun _ => 0) (by decide)
      (fun k => ⟨le_refl 0, by norm_num⟩)⟩

/-- C9: with draws in `[0,1)`, `random_fill_board` with density 0 makes
every cell dead and with density 1 makes every cell alive, whatever the
grid's prior contents, preserving the dimensions. -/
theorem random_fill_density_bounds (board : Board) (rand : Nat → Rat)
    (hrect : rectangular board) (hrand : ∀ k, 0 ≤ rand k ∧ rand k < 1) :
    (random_fill_board board 0 rand).length = board.length ∧
    (random_fill_board board 1 rand).length = board.length ∧
    (∀ r', ((random_fill_board board 0 rand).getD r' []).length
      = (board.getD r' []).length) ∧
    (∀ r', ((random_fill_board board 1 rand).getD r' []).length
      = (board.getD r' []).length) ∧
    (∀ r c : Nat, r < board.length → c < (board.getD 0 []).length →
      cell (random_fill_board board 0 rand) r c = 0) ∧
    (∀ r c : Nat, r < board.length → c < (board.getD 0 []).length →
      cell (random_fill_board board 1 rand) r c = 1) := by
  obtain ⟨hl0, hr0⟩ := random_fill_dims board 0 rand
  obtain ⟨hl1, hr1⟩ := random_fill_dims board 1 rand
  obtain ⟨-, -, hc0⟩ := random_fill_const board 0 rand 0
    (fun k => if_neg (not_lt.mpr (hrand k).1)) hrect
  obtain ⟨-, -, hc1⟩ := random_fill_const board 1 rand 1
    (fun k => if_pos (hrand k).2) hrect
  exact ⟨hl0, hl1, hr0, hr1, hc0, hc1⟩

theorem random_fill_density_bounds_witness :
    (rectangular [[5, 7]] ∧ (∀ k : Nat, 0 ≤ (fun _ : Nat => (0 : Rat)) k ∧
      (fun _ : Nat => (0 : Rat)) k < 1)) ∧
    ((random_fill_board [[5, 7]] 0 (fun _ => 0)).length = ([[5, 7]] : Board).length ∧
    (random_fill_board [[5, 7]] 1 (fun _ => 0)).length = ([[5, 7]] : Board).length ∧
    (∀ r', ((random_fill_board [[5, 7]] 0 (fun _ => 0)).getD r' []).length
      = (([[5, 7]] : Board).getD r' []).length) ∧
    (∀ r', ((random_fill_board [[5, 7]] 1 (fun _ => 0)).getD r' []).length
      = (([[5, 7]] : Board).getD r' []).length) ∧
    (∀ r c : Nat, r < ([[5, 7]] : Board).length →
      c < (([[5, 7]] : Board).getD 0 []).length →
      cell (random_fill_board [[5, 7]] 0 (fun _ => 0)) r c = 0) ∧
    (∀ r c : Nat, r < ([[5, 7]] : Board).length →
      c < (([[5, 7]] : Board).getD 0 []).length →
      cell (random_fill_board [[5, 7]] 1 (fun _ => 0)) r c = 1)) :=
  ⟨⟨by decide, fun k => ⟨le_refl 0, by norm_num⟩⟩,
    random_fill_density_bounds [[5, 7]] (fun _ => 0) (by decide)
      (fun k => ⟨le_refl 0, by norm_num⟩)⟩

/-- C10: on any rectangular board, even one holding values other than 0 or
1, every cell of `next_board_state`'s output is 0 or 1, and replacing every
non-1 input value by 0 (dead) changes nothing: non-1 values are dead both as
neighbors and as the cell's own state. -/
theorem next_board_state_binary (board : Board) (hrect : rectangular board) :
    (∀ r c : Nat, r < board.length → c < (board.getD 0 []).length →
      (cell (next_board_state board) r c = 0 ∨ cell (next_board_state board) r c = 1)) ∧
    next_board_state (normalizeBoard board) = next_board_state board := by
  refine ⟨?_, next_board_state_normalize board⟩
  intro r c hr hc
  rw [next_board_state_cell board r c hr hc, ruleVal]
  split_ifs <;> simp

theorem next_board_state_binary_witness :
    rectangular [[2, 1], [1, 3]] ∧
    ((∀ r c : Nat, r < ([[2, 1], [1, 3]] : Board).length →
      c < (([[2, 1], [1, 3]] : Board).getD 0 []).length →
      (cell (next_board_state [[2, 1], [1, 3]]) r c = 0 ∨
        cell (next_board_state [[2, 1], [1, 3]]) r c = 1)) ∧
    next_board_state (normalizeBoard [[2, 1], [1, 3]])
      = next_board_state [[2, 1], [1, 3]]) :=
  ⟨by decide, next_board_state_binary [[2, 1], [1, 3]] (by decide)⟩

theorem load_pattern_file_not_found_witness :
    (load_pattern none 4 2).1 = create_board 4 2 ∧
    (load_pattern none 4 2).1.length = (2 : Int).toNat ∧
    (∀ r' < (2 : Int).toNat, ((load_pattern none 4 2).1.getD r' []).length
      = (4 : Int).toNat) ∧
    (∀ r c : Nat, cell (load_pattern none 4 2).1 r c = 0) ∧
    (load_pattern none 4 2).2 = [LoadMsg.fileNotFound] :=
  load_pattern_file_not_found 4 2
